import Mathlib

/-!
Verification of the component documentation parser in
`pcweb/pages/docs/component.py`.

The development shallowly embeds the parsing logic of that module:
  * `Source._get_props` (lines 73-135): a single pass over the stored source
    lines that associates accumulated comment lines with declared props;
  * `Source.get_comment` (lines 137-139): concatenation of stripped comments;
  * `Source.get_props` (lines 59-71): recursion over the chain of immediate
    base classes, stopping at the framework root component class;
  * `Source.__init__` (lines 40-49): the stored `code` is the list of
    non-empty source lines;
  * `prop_docs` (lines 157-177) and `TYPE_COLORS` (lines 143-154): the
    type-to-display-color resolution including its AttributeError handler.

Lines are embedded as `String`; Python string primitives (`strip`,
`startswith`, the two `re.search` patterns used) are given executable
translations below.
-/

namespace ReflexWeb

/-- Python `s.strip(chars)` restricted to a character predicate: removes the
matching characters from both ends of the character list. -/
def pyStripList (p : Char → Bool) (s : List Char) : List Char :=
  ((s.dropWhile p).reverse.dropWhile p).reverse

/-- Python `s.strip(chars)` on strings (`strip()` is `pyStrip Char.isWhitespace`,
`strip("#")` is `pyStrip (fun c => c == Char.ofNat 35)`, etc.). -/
def pyStrip (p : Char → Bool) (s : String) : String :=
  String.mk (pyStripList p s.toList)

/-- Python `s.startswith("#")`: the first character is `'#'`. -/
def startsWithHash (s : String) : Bool :=
  match s.toList with
  | '#' :: _ => true
  | _ => false

/-- The composite `line.strip().startswith("#")` used by `_get_props` both for
recognising comment lines (line 95) and for the assertion on the line stored
before a matched prop (lines 112-115). -/
def isCommentLine (line : String) : Bool :=
  startsWithHash (pyStrip Char.isWhitespace line)

/-- Does `pat` occur as a contiguous subsequence of `s`?  This is
`re.search` for a pattern with no metacharacters. -/
def hasSubSeq (pat : List Char) : List Char → Bool
  | [] => pat.isEmpty
  | c :: rest => pat.isPrefixOf (c :: rest) || hasSubSeq pat rest

/-- `re.search("def ", line)` (line 89): the four characters `def ` occur in
the line. -/
def hasDefSpace (line : String) : Bool :=
  hasSubSeq "def ".toList line.toList

/-- A word character for the regex class `\w` (ASCII reading): letters,
digits and underscore. -/
def isWordChar (c : Char) : Bool :=
  c.isAlphanum || c == '_'

/-- Attempt to match the regex `\w+:` at the start of `s`.  The greedy `\w+`
takes the maximal run of word characters; backtracking to a shorter run can
never help because shorter runs are followed by a word character, not `':'`. -/
def matchPropAt (s : List Char) : Option (List Char) :=
  let run := s.takeWhile isWordChar
  if run.isEmpty then none
  else
    match s.drop run.length with
    | ':' :: _ => some (run ++ [':'])
    | _ => none

/-- `re.search("\w+:", line)` (line 100): the leftmost match of `\w+:`,
returned as the matched text (`match.group(0)`). -/
def searchProp : List Char → Option (List Char)
  | [] => none
  | c :: rest =>
    match matchPropAt (c :: rest) with
    | some m => some m
    | none => searchProp rest

/-- The prop name a line yields: `match.group(0).strip(":")` when
`re.search("\w+:", line)` matches, `none` when it does not (lines 100-106). -/
def propNameOf (line : String) : Option String :=
  (searchProp line.toList).map (fun m => String.mk (pyStripList (fun c => c == ':') m))

/-- The type descriptor of a Python type object: either it has a `__name__`
attribute or accessing `__name__` raises `AttributeError`. -/
inductive TypeName where
  | named (n : String)
  | anon
deriving DecidableEq, Repr

/-- A prop's declared outer type as `prop_docs` sees it: either an ordinary
type object, or a `rx.Var[T]` alias whose single type argument
(`get_args(type_)[0]`) carries the given descriptor. -/
inductive PyType where
  | plain (t : TypeName)
  | varAlias (t : TypeName)
deriving DecidableEq, Repr

/-- The record `Prop` of the module (lines 18-28): name, type and
description of one documented prop. -/
structure PropDoc where
  name : String
  type_ : PyType
  description : String
deriving DecidableEq, Repr

/-- The reflection data of one component class that the parser consumes:
the raw source lines returned by `inspect.getsource`, the declared prop
names (`component.get_props()`), the field table
(`component.get_fields()[prop].outer_type_`) and the docstring
(`component.__doc__`). -/
structure ClassData where
  srcLines : List String
  props : List String
  fields : List (String × PyType)
  doc : Option String
deriving DecidableEq, Repr

/-- `component.get_fields()[prop].outer_type_` (line 123).  The scanner only
looks up names from `component.get_props()`, which the framework guarantees
to be field names, so the default is never consulted for well-formed data. -/
def fieldType (d : ClassData) (prop : String) : PyType :=
  (d.fields.lookup prop).getD (PyType.plain TypeName.anon)

/-- A component class: its own reflection data together with the chain of
immediate base classes (`cls.__bases__[0]`, then that class's first base,
and so on) up to but excluding the framework root `rx.Component`.  Python's
single-inheritance chain to the root is finite, which the list makes
explicit. -/
structure ComponentClass where
  data : ClassData
  bases : List ClassData
deriving DecidableEq, Repr

/-- `cls.__bases__[0]` guarded by `parent_cls != rx.Component` (lines 67-68):
`none` when the immediate base is the framework root. -/
def ComponentClass.base (c : ComponentClass) : Option ComponentClass :=
  match c.bases with
  | [] => none
  | b :: bs => some ⟨b, bs⟩

/-- The stored `self.code` computed by `Source.__init__` (lines 45-49): the
non-empty lines of `inspect.getsource(self.component)`, in order. -/
def ClassData.code_lines (d : ClassData) : List String :=
  d.srcLines.filter (fun line => 0 < line.length)

/-- The `Source` object (lines 31-49): the component being parsed and the
stored code lines. -/
structure Source where
  component : ComponentClass
  code : List String
deriving DecidableEq, Repr

/-- `Source(component=c)`: `__init__` stores the non-empty source lines. -/
def Source.of (c : ComponentClass) : Source :=
  ⟨c, c.data.code_lines⟩

/-- `Source.get_docs` (lines 51-57): returns `self.component.__doc__`. -/
def Source.get_docs (s : Source) : Option String :=
  s.component.data.doc

/-- Python `self.code[i - 1]` for the loop index `i` (line 112): for `i = 0`
this is `self.code[-1]`, the last stored line.  The defaults are never
consulted when `i` is a valid index of a non-empty `code`. -/
def prevLine (code : List String) (i : Nat) : String :=
  if i = 0 then code.getLastD "" else code.getD (i - 1) ""

/-- `Source.get_comment` (lines 137-139):
`"".join([comment.strip().strip("#") for comment in comments])`. -/
def get_comment (comments : List String) : String :=
  String.join (comments.map (fun comment =>
    pyStrip (fun c => c == '#') (pyStrip Char.isWhitespace comment)))

/-- The loop of `Source._get_props` (lines 85-135).  `d` supplies the class
reflection data, `code` is the full stored `self.code` (used only for the
`self.code[i - 1]` access), `rest` is the suffix of `code` still to be
scanned, `i` the index of its first line, and `comments` the pending comment
buffer.  The Python `assert` is embedded as `Except.error` carrying the
assertion message; `break` returns the records emitted so far, which the
surrounding recursion prepends to. -/
def getPropsAux (d : ClassData) (code : List String) :
    List String → Nat → List String → Except String (List PropDoc)
  | [], _, _ => Except.ok []
  | line :: rest, i, comments =>
    -- `re.search("def ", line)`: reached the functions, stop (lines 89-92).
    if hasDefSpace line then Except.ok []
    -- `line.strip().startswith("#")`: collect the comment (lines 95-97).
    else if isCommentLine line then getPropsAux d code rest (i + 1) (comments ++ [line])
    else
      match propNameOf line with
      -- no `\w+:` match: not a var, continue (lines 101-103).
      | none => getPropsAux d code rest (i + 1) comments
      | some prop =>
        if d.props.contains prop then
          -- `assert self.code[i - 1].strip().startswith("#")` (lines 111-115).
          if isCommentLine (prevLine code i) then
            Except.map
              (fun out =>
                { name := prop, type_ := fieldType d prop,
                  description := get_comment comments } :: out)
              (getPropsAux d code rest (i + 1) [])
          else
            Except.error ("Expected comment, got " ++ pyStrip Char.isWhitespace (prevLine code i))
        -- `prop not in props`: not a prop, continue (lines 107-109).
        else getPropsAux d code rest (i + 1) comments

/-- `Source._get_props` as a function of the class reflection data: the scan
starts at index 0 with an empty comment buffer, over the stored code lines. -/
def ClassData._get_props (d : ClassData) : Except String (List PropDoc) :=
  getPropsAux d d.code_lines d.code_lines 0 []

/-- `Source._get_props` (lines 73-135) on a `Source` value. -/
def Source._get_props (s : Source) : Except String (List PropDoc) :=
  getPropsAux s.component.data s.code s.code 0 []

/-- `Source.get_props` (lines 59-71) along the chain of base classes:
`props = self._get_props()`, then if the immediate base is not the framework
root, `props += Source(component=parent_cls).get_props()`. -/
def get_props_chain : ClassData → List ClassData → Except String (List PropDoc)
  -- base chain exhausted: `parent_cls == rx.Component`, so the result is
  -- `self._get_props()` (a raised assertion propagates unchanged).
  | d, [] => ClassData._get_props d
  | d, b :: bs =>
    match ClassData._get_props d with
    | Except.error e => Except.error e
    | Except.ok props =>
      match get_props_chain b bs with
      | Except.error e => Except.error e
      | Except.ok inherited => Except.ok (props ++ inherited)

/-- `Source.get_props` for the source built from a component class. -/
def Source.get_props (s : Source) : Except String (List PropDoc) :=
  get_props_chain s.component.data s.component.bases

/-- `Source(component=c).get_props()` at the class level. -/
def ComponentClass.get_props (c : ComponentClass) : Except String (List PropDoc) :=
  get_props_chain c.data c.bases

/-- The number of classes on the inheritance chain from the class down to
(but excluding) the framework root: the recursion depth of `get_props`. -/
def ComponentClass.depth (c : ComponentClass) : Nat :=
  c.bases.length + 1

/-- `Source.get_props` with an explicit recursion budget, mirroring the
Python recursion on `cls.__bases__[0]`: `none` means the budget was
exhausted before the framework root was reached. -/
def get_props_fuel : Nat → ComponentClass → Option (Except String (List PropDoc))
  | 0, _ => none
  | _ + 1, ⟨d, []⟩ =>
    match ClassData._get_props d with
    | Except.error e => some (Except.error e)
    | Except.ok props => some (Except.ok props)
  | fuel + 1, ⟨d, b :: bs⟩ =>
    match ClassData._get_props d with
    | Except.error e => some (Except.error e)
    | Except.ok props =>
      match get_props_fuel fuel ⟨b, bs⟩ with
      | none => none
      | some (Except.error e) => some (Except.error e)
      | some (Except.ok inherited) => some (Except.ok (props ++ inherited))

/-- `TYPE_COLORS` (lines 143-154). -/
def TYPE_COLORS : List (String × String) :=
  [("int", "red"), ("float", "orange"), ("str", "yellow"), ("bool", "teal"),
   ("Component", "purple"), ("List", "blue"), ("Dict", "blue"),
   ("Tuple", "blue"), ("None", "gray"), ("Figure", "green")]

/-- The type resolution of `prop_docs` (lines 160-163): for `rx.Var`
subclasses the var's single type argument is taken, otherwise the type
itself. -/
def resolve_type (t : PyType) : TypeName :=
  match t with
  | PyType.varAlias a => a
  | PyType.plain a => a

/-- The display-color computation of `prop_docs` (lines 157-170): the
resolved type's `__name__` is looked up in `TYPE_COLORS` with default
`"gray"`.  When the resolved type has no `__name__`, the `AttributeError`
is caught, a diagnostic is printed (the Boolean component), the unconverted
type object is the lookup key, and the dictionary lookup yields the default
`"gray"`.  The result is the pair (badge color, whether the diagnostic was
printed). -/
def prop_docs_color (t : PyType) : String × Bool :=
  match resolve_type t with
  | TypeName.named n => ((TYPE_COLORS.lookup n).getD "gray", false)
  | TypeName.anon => ("gray", true)

/-- The state-passing reading of `Source.get_props` (lines 59-71): the method
body threaded through the `self` object it may update.  No statement of
`get_props` or `_get_props` assigns to `self.component` or `self.code`
(the lists `out`, `props` and `comments` are locals, and the recursive call
acts on a freshly constructed `Source` for the base class, evaluated here by
the pure `Source.get_props`), so every branch returns `s` itself. -/
def Source.get_props_st (s : Source) : Except String (List PropDoc) × Source :=
  match Source._get_props s with
  | Except.error e => (Except.error e, s)
  | Except.ok props =>
    match s.component.bases with
    | [] => (Except.ok props, s)
    | b :: bs =>
      match Source.get_props (Source.of ⟨b, bs⟩) with
      | Except.error e => (Except.error e, s)
      | Except.ok inherited => (Except.ok (props ++ inherited), s)

/-- The state-passing reading of `Source.get_docs` (lines 51-57): the body
only reads `self.component.__doc__`. -/
def Source.get_docs_st (s : Source) : Option String × Source :=
  (s.component.data.doc, s)

/-- Position `k` of the still-unscanned suffix `rest` (whose first line has
absolute index `i` in the stored code) is a declared-prop match with a bad
predecessor: the scan reaches it (no `def ` line at or before it), the line
is not a comment, its `\w+:` name is a declared prop, and the stored line
before it does not strip to a `#` comment. -/
def BadAt (d : ClassData) (code rest : List String) (i k : Nat) : Prop :=
  k < rest.length ∧
  (∀ j, j ≤ k → hasDefSpace (rest.getD j "") = false) ∧
  isCommentLine (rest.getD k "") = false ∧
  (∃ p, propNameOf (rest.getD k "") = some p ∧ d.props.contains p = true) ∧
  isCommentLine (prevLine code (i + k)) = false

/-! ### Concrete component classes used as test inputs -/

/-- A class declaring field `a` directly preceded by the comment line
`# desc_a`, and a field `b` that is not among the declared props. -/
def exC1 : ClassData :=
  { srcLines := ["class MyComp(Component):", "    # desc_a", "    a: int", "    b: str"],
    props := ["a"],
    fields := [("a", PyType.plain (TypeName.named "int")),
               ("b", PyType.plain (TypeName.named "str"))],
    doc := some "A component." }

/-- A derived class with one documented prop `x`, an empty source line, and
a method definition after the fields. -/
def dA : ClassData :=
  { srcLines := ["class Alpha(Beta):", "    # xdoc", "    x: int", "",
                 "    def create(cls):"],
    props := ["x"],
    fields := [("x", PyType.plain (TypeName.named "int"))],
    doc := some "Alpha." }

/-- A base class (its own immediate base being the framework root) with one
documented prop `y`. -/
def dB : ClassData :=
  { srcLines := ["class Beta(Component):", "    # ydoc", "    y: str"],
    props := ["y"],
    fields := [("y", PyType.plain (TypeName.named "str"))],
    doc := some "Beta." }

/-- A class whose prop `a` is preceded by two consecutive comment lines. -/
def dC3 : ClassData :=
  { srcLines := ["# one", "#two", "a: int"],
    props := ["a"],
    fields := [("a", PyType.plain (TypeName.named "int"))],
    doc := none }

/-- A class with a comment above a non-prop declaration `b`, then a comment
and the prop `a`. -/
def dC9 : ClassData :=
  { srcLines := ["# lost", "b: str", "# own", "a: int"],
    props := ["a"],
    fields := [("a", PyType.plain (TypeName.named "int"))],
    doc := none }

/-- A class whose prop declaration is the very first stored line; the last
stored line is a comment. -/
def dW10 : ClassData :=
  { srcLines := ["a: int", "x = 1", "# c"],
    props := ["a"],
    fields := [("a", PyType.plain (TypeName.named "int"))],
    doc := none }

/-! ### Small list facts used by the scan lemmas -/

theorem getD_drop (l : List String) :
    ∀ (i k : Nat), (l.drop i).getD k "" = l.getD (i + k) "" := by
  induction l with
  | nil => intro i k; simp [List.getD]
  | cons a l ih =>
    intro i k
    cases i with
    | zero => simp
    | succ i =>
      rw [List.drop_succ_cons, ih i k, Nat.succ_add, List.getD_cons_succ]

theorem getD_mem (l : List String) :
    ∀ (k : Nat), k < l.length → l.getD k "" ∈ l := by
  induction l with
  | nil => intro k hk; simp at hk
  | cons a l ih =>
    intro k hk
    cases k with
    | zero => rw [List.getD_cons_zero]; exact List.mem_cons_self a l
    | succ k =>
      rw [List.getD_cons_succ]
      exact List.mem_cons_of_mem a (ih k (by simpa using hk))

theorem getD_append_left (l l' : List String) :
    ∀ (k : Nat), k < l.length → (l ++ l').getD k "" = l.getD k "" := by
  induction l with
  | nil => intro k hk; simp at hk
  | cons a l ih =>
    intro k hk
    cases k with
    | zero => simp
    | succ k =>
      rw [List.cons_append, List.getD_cons_succ, List.getD_cons_succ]
      exact ih k (by simpa using hk)

theorem getD_append_add (l l' : List String) :
    ∀ (k : Nat), (l ++ l').getD (l.length + k) "" = l'.getD k "" := by
  induction l with
  | nil => intro k; simp
  | cons a l ih =>
    intro k
    rw [List.cons_append, List.length_cons, Nat.succ_add, List.getD_cons_succ]
    exact ih k

theorem map_eq_error_iff {α β : Type} (f : α → β) (x : Except String α) :
    (∃ e, Except.map f x = Except.error e) ↔ (∃ e, x = Except.error e) := by
  cases x <;> simp [Except.map]

/-- `self.code[i - 1]` at a position known through a `drop` equation: line
`i + k + 1` of the scan looks back at element `k` of the dropped suffix. -/
theorem prevLine_of_drop (code l : List String) (i k : Nat)
    (h : code.drop i = l) :
    prevLine code (i + k + 1) = l.getD k "" := by
  rw [prevLine, if_neg (by omega), Nat.add_sub_cancel, ← h, getD_drop]

/-! ### One-step reductions of the scanning loop -/

theorem aux_step_def (d : ClassData) (code : List String) (line : String)
    (rest : List String) (i : Nat) (buf : List String)
    (h1 : hasDefSpace line = true) :
    getPropsAux d code (line :: rest) i buf = Except.ok [] := by
  simp [getPropsAux, h1]

theorem aux_step_comment (d : ClassData) (code : List String) (line : String)
    (rest : List String) (i : Nat) (buf : List String)
    (h1 : hasDefSpace line = false) (h2 : isCommentLine line = true) :
    getPropsAux d code (line :: rest) i buf =
      getPropsAux d code rest (i + 1) (buf ++ [line]) := by
  simp [getPropsAux, h1, h2]

theorem aux_step_skip (d : ClassData) (code : List String) (line : String)
    (rest : List String) (i : Nat) (buf : List String)
    (h1 : hasDefSpace line = false) (h2 : isCommentLine line = false)
    (h3 : propNameOf line = none ∨
      ∃ q, propNameOf line = some q ∧ d.props.contains q = false) :
    getPropsAux d code (line :: rest) i buf = getPropsAux d code rest (i + 1) buf := by
  rcases h3 with h3 | ⟨q, hq1, hq2⟩
  · simp [getPropsAux, h1, h2, h3]
  · have hq2' : q ∉ d.props := by simpa using hq2
    simp [getPropsAux, h1, h2, hq1, hq2']

theorem aux_step_emit (d : ClassData) (code : List String) (line : String)
    (rest : List String) (i : Nat) (buf : List String) (p : String)
    (h1 : hasDefSpace line = false) (h2 : isCommentLine line = false)
    (h3 : propNameOf line = some p) (h4 : d.props.contains p = true)
    (h5 : isCommentLine (prevLine code i) = true) :
    getPropsAux d code (line :: rest) i buf =
      Except.map
        (fun out =>
          { name := p, type_ := fieldType d p,
            description := get_comment buf } :: out)
        (getPropsAux d code rest (i + 1) []) := by
  have h4' : p ∈ d.props := by simpa using h4
  simp [getPropsAux, h1, h2, h3, h4', h5]

theorem aux_step_abort (d : ClassData) (code : List String) (line : String)
    (rest : List String) (i : Nat) (buf : List String) (p : String)
    (h1 : hasDefSpace line = false) (h2 : isCommentLine line = false)
    (h3 : propNameOf line = some p) (h4 : d.props.contains p = true)
    (h5 : isCommentLine (prevLine code i) = false) :
    getPropsAux d code (line :: rest) i buf =
      Except.error ("Expected comment, got " ++ pyStrip Char.isWhitespace (prevLine code i)) := by
  have h4' : p ∈ d.props := by simpa using h4
  simp [getPropsAux, h1, h2, h3, h4', h5]

/-- Consecutive comment lines are accumulated, in order, after the pending
buffer, while the index advances past them. -/
theorem aux_skip_comments (d : ClassData) (code : List String) :
    ∀ (cs tail : List String) (i : Nat) (buf : List String),
      (∀ c ∈ cs, hasDefSpace c = false ∧ isCommentLine c = true) →
      getPropsAux d code (cs ++ tail) i buf =
        getPropsAux d code tail (i + cs.length) (buf ++ cs) := by
  intro cs
  induction cs with
  | nil => intro tail i buf _; simp
  | cons c cs ih =>
    intro tail i buf hcs
    have hc := hcs c (List.mem_cons_self c cs)
    rw [List.cons_append, aux_step_comment d code c (cs ++ tail) i buf hc.1 hc.2,
      ih tail (i + 1) (buf ++ [c]) (fun x hx => hcs x (List.mem_cons_of_mem c hx))]
    have e1 : i + 1 + cs.length = i + (c :: cs).length := by
      simp [List.length_cons]; omega
    have e2 : (buf ++ [c]) ++ cs = buf ++ c :: cs := by simp
    rw [e1, e2]

/-- A line containing `def ` stops the scan: whatever follows it never
affects the result. -/
theorem aux_stop_def (d : ClassData) (code : List String) (dl : String)
    (post : List String) (hdl : hasDefSpace dl = true) :
    ∀ (pre : List String) (i : Nat) (buf : List String),
      getPropsAux d code (pre ++ dl :: post) i buf = getPropsAux d code pre i buf := by
  intro pre
  induction pre with
  | nil =>
    intro i buf
    rw [List.nil_append, aux_step_def d code dl post i buf hdl]
    rfl
  | cons line pre ih =>
    intro i buf
    rw [List.cons_append]
    cases h1 : hasDefSpace line with
    | true => rw [aux_step_def d code line _ i buf h1, aux_step_def d code line pre i buf h1]
    | false =>
      cases h2 : isCommentLine line with
      | true =>
        rw [aux_step_comment d code line _ i buf h1 h2,
          aux_step_comment d code line pre i buf h1 h2, ih]
      | false =>
        cases hm : propNameOf line with
        | none =>
          rw [aux_step_skip d code line _ i buf h1 h2 (Or.inl hm),
            aux_step_skip d code line pre i buf h1 h2 (Or.inl hm), ih]
        | some p =>
          cases hc : d.props.contains p with
          | false =>
            rw [aux_step_skip d code line _ i buf h1 h2 (Or.inr ⟨p, hm, hc⟩),
              aux_step_skip d code line pre i buf h1 h2 (Or.inr ⟨p, hm, hc⟩), ih]
          | true =>
            cases hp : isCommentLine (prevLine code i) with
            | true =>
              rw [aux_step_emit d code line _ i buf p h1 h2 hm hc hp,
                aux_step_emit d code line pre i buf p h1 h2 hm hc hp, ih]
            | false =>
              rw [aux_step_abort d code line _ i buf p h1 h2 hm hc hp,
                aux_step_abort d code line pre i buf p h1 h2 hm hc hp]

/-- A suffix in which no line is a declared-prop match produces no record
and no abort. -/
theorem aux_no_emit (d : ClassData) (code : List String) :
    ∀ (rest : List String) (i : Nat) (buf : List String),
      (∀ l ∈ rest, hasDefSpace l = true ∨ isCommentLine l = true ∨ propNameOf l = none ∨
        ∃ q, propNameOf l = some q ∧ d.props.contains q = false) →
      getPropsAux d code rest i buf = Except.ok [] := by
  intro rest
  induction rest with
  | nil => intro i buf _; rfl
  | cons line rest ih =>
    intro i buf h
    have hl := h line (List.mem_cons_self line rest)
    have hr := fun x hx => h x (List.mem_cons_of_mem line hx)
    cases h1 : hasDefSpace line with
    | true => exact aux_step_def d code line rest i buf h1
    | false =>
      cases h2 : isCommentLine line with
      | true =>
        rw [aux_step_comment d code line rest i buf h1 h2]
        exact ih (i + 1) (buf ++ [line]) hr
      | false =>
        have h3 : propNameOf line = none ∨
            ∃ q, propNameOf line = some q ∧ d.props.contains q = false := by
          rcases hl with hl | hl | hl | hl
          · rw [h1] at hl; exact absurd hl (by simp)
          · rw [h2] at hl; exact absurd hl (by simp)
          · exact Or.inl hl
          · exact Or.inr hl
        rw [aux_step_skip d code line rest i buf h1 h2 h3]
        exact ih (i + 1) buf hr

/-! ### Characterising the abort -/

theorem bad_shift (d : ClassData) (code : List String) (line : String)
    (rest : List String) (i : Nat)
    (hdef : hasDefSpace line = false)
    (hno : isCommentLine line = true ∨ propNameOf line = none ∨
      (∃ p, propNameOf line = some p ∧ d.props.contains p = false) ∨
      isCommentLine (prevLine code i) = true) :
    (∃ k, BadAt d code (line :: rest) i k) ↔ (∃ k, BadAt d code rest (i + 1) k) := by
  constructor
  · rintro ⟨k, hk⟩
    obtain ⟨hlen, hdefs, hcom, ⟨p, hp, hcon⟩, hprev⟩ := hk
    cases k with
    | zero =>
      exfalso
      rw [List.getD_cons_zero] at hcom hp
      rcases hno with h | h | ⟨q, hq1, hq2⟩ | h
      · rw [h] at hcom; exact absurd hcom (by simp)
      · rw [h] at hp; exact absurd hp (by simp)
      · rw [hq1] at hp
        have : p = q := (Option.some.inj hp).symm
        rw [this] at hcon
        rw [hq2] at hcon
        exact absurd hcon (by simp)
      · rw [Nat.add_zero] at hprev
        rw [h] at hprev
        exact absurd hprev (by simp)
    | succ k =>
      refine ⟨k, ?_, ?_, ?_, ?_, ?_⟩
      · simpa using hlen
      · intro j hj
        have := hdefs (j + 1) (by omega)
        rwa [List.getD_cons_succ] at this
      · rwa [List.getD_cons_succ] at hcom
      · rw [List.getD_cons_succ] at hp; exact ⟨p, hp, hcon⟩
      · have e : i + (k + 1) = i + 1 + k := by omega
        rwa [e] at hprev
  · rintro ⟨k, hk⟩
    obtain ⟨hlen, hdefs, hcom, hex, hprev⟩ := hk
    refine ⟨k + 1, ?_, ?_, ?_, ?_, ?_⟩
    · simpa using hlen
    · intro j hj
      cases j with
      | zero => rw [List.getD_cons_zero]; exact hdef
      | succ j => rw [List.getD_cons_succ]; exact hdefs j (by omega)
    · rwa [List.getD_cons_succ]
    · rwa [List.getD_cons_succ]
    · have e : i + (k + 1) = i + 1 + k := by omega
      rwa [e]

/-- The scan aborts exactly when some reached declared-prop line has a bad
predecessor. -/
theorem aux_error_iff (d : ClassData) (code : List String) :
    ∀ (rest : List String) (i : Nat) (comments : List String),
      (∃ e, getPropsAux d code rest i comments = Except.error e) ↔
        ∃ k, BadAt d code rest i k := by
  intro rest
  induction rest with
  | nil =>
    intro i comments
    constructor
    · rintro ⟨e, he⟩
      exact absurd he (by simp [getPropsAux])
    · rintro ⟨k, hk⟩
      exact absurd hk.1 (by simp [BadAt])
  | cons line rest ih =>
    intro i comments
    cases h1 : hasDefSpace line with
    | true =>
      rw [aux_step_def d code line rest i comments h1]
      constructor
      · rintro ⟨e, he⟩; exact absurd he (by simp)
      · rintro ⟨k, hk⟩
        have := hk.2.1 0 (Nat.zero_le k)
        rw [List.getD_cons_zero, h1] at this
        exact absurd this (by simp)
    | false =>
      cases h2 : isCommentLine line with
      | true =>
        rw [aux_step_comment d code line rest i comments h1 h2]
        exact (ih (i + 1) (comments ++ [line])).trans
          (bad_shift d code line rest i h1 (Or.inl h2)).symm
      | false =>
        cases hm : propNameOf line with
        | none =>
          rw [aux_step_skip d code line rest i comments h1 h2 (Or.inl hm)]
          exact (ih (i + 1) comments).trans
            (bad_shift d code line rest i h1 (Or.inr (Or.inl hm))).symm
        | some p =>
          cases hc : d.props.contains p with
          | false =>
            rw [aux_step_skip d code line rest i comments h1 h2 (Or.inr ⟨p, hm, hc⟩)]
            exact (ih (i + 1) comments).trans
              (bad_shift d code line rest i h1 (Or.inr (Or.inr (Or.inl ⟨p, hm, hc⟩)))).symm
          | true =>
            cases hp : isCommentLine (prevLine code i) with
            | true =>
              rw [aux_step_emit d code line rest i comments p h1 h2 hm hc hp]
              exact ((map_eq_error_iff _ _).trans (ih (i + 1) [])).trans
                (bad_shift d code line rest i h1 (Or.inr (Or.inr (Or.inr hp)))).symm
            | false =>
              rw [aux_step_abort d code line rest i comments p h1 h2 hm hc hp]
              apply iff_of_true
              · exact ⟨_, rfl⟩
              · refine ⟨0, by simp, ?_, ?_, ⟨p, ?_, hc⟩, ?_⟩
                · intro j hj
                  have : j = 0 := by omega
                  rw [this, List.getD_cons_zero]; exact h1
                · rw [List.getD_cons_zero]; exact h2
                · rw [List.getD_cons_zero]; exact hm
                · rw [Nat.add_zero]; exact hp

/-! ### The claims -/

/-- Claim C1, counterexample.  For the class `exC1`, whose field `a` is
directly preceded by the comment line `# desc_a` and whose field `b` is not
among the declared props, `_get_props` yields exactly one record for `a`,
but its description is `" desc_a"` (the space after the `#` marker
survives `strip("#")`), not `"desc_a"` as the claim states. -/
theorem c1_counterexample :
    ClassData._get_props exC1 =
      Except.ok [{ name := "a", type_ := PyType.plain (TypeName.named "int"),
                   description := " desc_a" }] ∧
    (" desc_a" : String) ≠ "desc_a" := by
  constructor
  · rfl
  · decide

/-- Claim C1 as amended.  For a class whose scanned source is a header line
(no `def `, not a comment, no `\w+:` match), the comment line `    # desc_a`,
the declaration `    a: int` of the sole declared prop `a`, the declaration
`    b: str` of a field not among the declared props, and a remainder
containing no declared-prop match, `_get_props` yields exactly one record,
for `a`, whose description is `" desc_a"`: the stripped comment content with
the `#` marker removed, keeping the space that followed the marker. -/
theorem c1_amended (d : ClassData) (hdr : String) (rest : List String)
    (hcode : d.code_lines = hdr :: "    # desc_a" :: "    a: int" :: "    b: str" :: rest)
    (hh1 : hasDefSpace hdr = false) (hh2 : isCommentLine hdr = false)
    (hh3 : propNameOf hdr = none)
    (hprops : d.props = ["a"])
    (hrest : ∀ l ∈ rest, hasDefSpace l = true ∨ isCommentLine l = true ∨
      propNameOf l = none ∨ ∃ q, propNameOf l = some q ∧ d.props.contains q = false) :
    ClassData._get_props d =
      Except.ok [{ name := "a", type_ := fieldType d "a", description := " desc_a" }] := by
  have hwin : getPropsAux d d.code_lines d.code_lines 0 [] =
      getPropsAux d d.code_lines
        (hdr :: "    # desc_a" :: "    a: int" :: "    b: str" :: rest) 0 [] := by
    rw [hcode]
  show getPropsAux d d.code_lines d.code_lines 0 [] = _
  rw [hwin]
  rw [aux_step_skip d d.code_lines hdr _ 0 [] hh1 hh2 (Or.inl hh3)]
  rw [aux_step_comment d d.code_lines "    # desc_a" _ 1 [] (by decide) (by decide)]
  have hprev : isCommentLine (prevLine d.code_lines 2) = true := by
    rw [prevLine, if_neg (by omega), show (2 : Nat) - 1 = 1 from rfl, hcode,
      List.getD_cons_succ, List.getD_cons_zero]
    decide
  rw [aux_step_emit d d.code_lines "    a: int" _ 2 _ "a" (by decide) (by decide)
    (by decide) (by rw [hprops]; decide) hprev]
  rw [aux_step_skip d d.code_lines "    b: str" rest 3 [] (by decide) (by decide)
    (Or.inr ⟨"b", by decide, by rw [hprops]; decide⟩)]
  rw [aux_no_emit d d.code_lines rest 4 [] hrest]
  rfl

/-- Witness for claim C1 (amended): the concrete class `exC1` instantiates
the amended claim, with `fieldType exC1 "a"` evaluating to the declared
`int` type. -/
theorem c1_amended_witness :
    ClassData._get_props exC1 =
      Except.ok [{ name := "a", type_ := PyType.plain (TypeName.named "int"),
                   description := " desc_a" }] := by
  have h := c1_amended exC1 "class MyComp(Component):" []
    rfl (by decide) (by decide) (by decide) rfl (by simp)
  exact h

/-- Claim C2.  The parse aborts (returns the assertion error) exactly when
some scanned line — reached before any `def ` line, not itself a comment —
matches a declared prop while the stored line immediately before it
(`self.code[i - 1]`, after whitespace-trimming) does not start with `#`.
Conversely, when every matched prop line is directly preceded by a comment
line, the parse does not abort. -/
theorem c2_abort_iff (d : ClassData) :
    (∃ e, ClassData._get_props d = Except.error e) ↔
      ∃ k, k < d.code_lines.length ∧
        (∀ j, j ≤ k → hasDefSpace (d.code_lines.getD j "") = false) ∧
        isCommentLine (d.code_lines.getD k "") = false ∧
        (∃ p, propNameOf (d.code_lines.getD k "") = some p ∧
          d.props.contains p = true) ∧
        isCommentLine (prevLine d.code_lines k) = false := by
  have h := aux_error_iff d d.code_lines d.code_lines 0 []
  have hsh : ClassData._get_props d = getPropsAux d d.code_lines d.code_lines 0 [] := rfl
  rw [hsh, h]
  constructor
  · rintro ⟨k, hk⟩
    obtain ⟨h1, h2, h3, h4, h5⟩ := hk
    exact ⟨k, h1, h2, h3, h4, by rwa [Nat.zero_add] at h5⟩
  · rintro ⟨k, h1, h2, h3, h4, h5⟩
    exact ⟨k, h1, h2, h3, h4, by rwa [Nat.zero_add]⟩

/-- Claim C3.  When the pending buffer is empty and several consecutive
comment lines directly precede a line matching the declared prop `p`, the
scan emits a record for `p` whose description is the in-order concatenation
of those comment lines' whitespace-trimmed contents with the `#` marker
characters stripped from their ends, and continues after the matched line
with a cleared buffer. -/
theorem c3_comment_concat (d : ClassData) (i : Nat) (cs : List String)
    (pl : String) (rest : List String) (p : String)
    (hcs : ∀ c ∈ cs, hasDefSpace c = false ∧ isCommentLine c = true)
    (hne : cs ≠ [])
    (hdrop : d.code_lines.drop i = cs ++ pl :: rest)
    (h1 : hasDefSpace pl = false) (h2 : isCommentLine pl = false)
    (h3 : propNameOf pl = some p) (h4 : d.props.contains p = true) :
    getPropsAux d d.code_lines (cs ++ pl :: rest) i [] =
      Except.map
        (fun out =>
          { name := p, type_ := fieldType d p,
            description := String.join (cs.map (fun c =>
              pyStrip (fun ch => ch == '#') (pyStrip Char.isWhitespace c))) } :: out)
        (getPropsAux d d.code_lines rest (i + cs.length + 1) []) := by
  rw [aux_skip_comments d d.code_lines cs (pl :: rest) i [] hcs, List.nil_append]
  have hlt : 0 < cs.length := List.length_pos.mpr hne
  have hprev : isCommentLine (prevLine d.code_lines (i + cs.length)) = true := by
    have h0 : i + cs.length = i + (cs.length - 1) + 1 := by omega
    rw [h0, prevLine_of_drop d.code_lines (cs ++ pl :: rest) i (cs.length - 1) hdrop,
      getD_append_left cs (pl :: rest) (cs.length - 1) (by omega)]
    exact (hcs _ (getD_mem cs (cs.length - 1) (by omega))).2
  rw [aux_step_emit d d.code_lines pl rest (i + cs.length) cs p h1 h2 h3 h4 hprev]
  rfl

/-- Witness for claim C3: for the class `dC3` the two consecutive comment
lines `# one` and `#two` above `a: int` produce the single record for `a`
with description `" onetwo"`, their stripped contents concatenated in
order. -/
theorem c3_comment_concat_witness :
    getPropsAux dC3 dC3.code_lines ["# one", "#two", "a: int"] 0 [] =
      Except.ok [{ name := "a", type_ := PyType.plain (TypeName.named "int"),
                   description := " onetwo" }] := by
  have h := c3_comment_concat dC3 0 ["# one", "#two"] "a: int" [] "a"
    (by decide) (by decide) rfl (by decide) (by decide) (by decide) (by decide)
  exact h.trans rfl

/-- Claim C4.  For a component class whose immediate base is not the
framework root, `get_props` returns the records of the class itself
followed by the records recursively obtained from the immediate base
class. -/
theorem c4_inherited_append (c b : ComponentClass)
    (hb : ComponentClass.base c = some b)
    (own inherited : List PropDoc)
    (hown : Source._get_props (Source.of c) = Except.ok own)
    (hinh : Source.get_props (Source.of b) = Except.ok inherited) :
    Source.get_props (Source.of c) = Except.ok (own ++ inherited) := by
  obtain ⟨d, bases⟩ := c
  cases bases with
  | nil => exact absurd hb (by simp [ComponentClass.base])
  | cons x xs =>
    have hb2 : (⟨x, xs⟩ : ComponentClass) = b := Option.some.inj hb
    subst hb2
    have hown2 : ClassData._get_props d = Except.ok own := hown
    have hinh2 : get_props_chain x xs = Except.ok inherited := hinh
    show get_props_chain d (x :: xs) = Except.ok (own ++ inherited)
    rw [get_props_chain, hown2, hinh2]

/-- Witness for claim C4: the derived class `dA` over the base `dB` yields
the `x` record of `dA` followed by the `y` record of `dB`. -/
theorem c4_inherited_append_witness :
    Source.get_props (Source.of ⟨dA, [dB]⟩) =
      Except.ok
        ([{ name := "x", type_ := PyType.plain (TypeName.named "int"),
            description := " xdoc" }] ++
         [{ name := "y", type_ := PyType.plain (TypeName.named "str"),
            description := " ydoc" }]) :=
  c4_inherited_append ⟨dA, [dB]⟩ ⟨dB, []⟩ rfl
    [{ name := "x", type_ := PyType.plain (TypeName.named "int"),
       description := " xdoc" }]
    [{ name := "y", type_ := PyType.plain (TypeName.named "str"),
       description := " ydoc" }]
    rfl rfl

/-- Claim C5.  The scan stops at the first line containing a `def ` match:
the result of `_get_props` equals the result of scanning only the lines
before that line, so no comment line or prop declaration at or after it
contributes any record. -/
theorem c5_stop_at_def (d : ClassData) (pre : List String) (dl : String)
    (post : List String)
    (hcode : d.code_lines = pre ++ dl :: post) (hdl : hasDefSpace dl = true) :
    ClassData._get_props d = getPropsAux d d.code_lines pre 0 [] := by
  calc ClassData._get_props d
      = getPropsAux d d.code_lines (pre ++ dl :: post) 0 [] := by
        show getPropsAux d d.code_lines d.code_lines 0 [] = _
        rw [hcode]
    _ = getPropsAux d d.code_lines pre 0 [] :=
        aux_stop_def d d.code_lines dl post hdl pre 0 []

/-- Witness for claim C5: for the class `dA` the scan stops at
`    def create(cls):`; only the three lines before it are scanned, and the
comment plus prop among them produce the single `x` record. -/
theorem c5_stop_at_def_witness :
    ClassData._get_props dA =
      getPropsAux dA dA.code_lines ["class Alpha(Beta):", "    # xdoc", "    x: int"] 0 [] :=
  c5_stop_at_def dA ["class Alpha(Beta):", "    # xdoc", "    x: int"]
    "    def create(cls):" [] rfl (by decide)

/-- Claim C6.  In `prop_docs`, when the resolved type has no `__name__`
the failure is caught, the diagnostic is printed (second component `true`)
and the display color falls back to `"gray"`; and every resolved type name
absent from `TYPE_COLORS` also maps to `"gray"`. -/
theorem c6_type_color_fallback (t : PyType) :
    (resolve_type t = TypeName.anon → prop_docs_color t = ("gray", true)) ∧
    (∀ n, resolve_type t = TypeName.named n → TYPE_COLORS.lookup n = none →
      prop_docs_color t = ("gray", false)) := by
  constructor
  · intro h
    rw [prop_docs_color, h]
  · intro n h hl
    rw [prop_docs_color, h]
    simp [hl]

/-- Witness for claim C6: a nameless type yields the printed diagnostic and
gray, and the unlisted name `Custom` (reached through a `Var` alias) yields
gray without a diagnostic. -/
theorem c6_type_color_fallback_witness :
    prop_docs_color (PyType.plain TypeName.anon) = ("gray", true) ∧
    prop_docs_color (PyType.varAlias (TypeName.named "Custom")) = ("gray", false) :=
  ⟨(c6_type_color_fallback (PyType.plain TypeName.anon)).1 rfl,
   (c6_type_color_fallback (PyType.varAlias (TypeName.named "Custom"))).2
     "Custom" rfl (by decide)⟩

/-- Claim C7.  A `Source` is immutable after construction: the state-passing
readings of `get_props` and `get_docs` return the object with its
`component` and `code` fields equal to their post-construction values, in
the abort branches as well as the successful ones. -/
theorem c7_source_immutable (c : ComponentClass) :
    (Source.get_props_st (Source.of c)).2.component = c ∧
    (Source.get_props_st (Source.of c)).2.code = c.data.code_lines ∧
    (Source.get_docs_st (Source.of c)).2 = Source.of c := by
  have h : (Source.get_props_st (Source.of c)).2 = Source.of c := by
    unfold Source.get_props_st
    split
    · rfl
    · split
      · rfl
      · split
        · rfl
        · rfl
  exact ⟨by rw [h]; rfl, by rw [h]; rfl, rfl⟩

/-- Claim C8.  `get_props` terminates along any finite base-class chain: with
any recursion budget at least the inheritance depth, the budgeted recursion
reaches the framework root and returns the unbudgeted result. -/
theorem c8_get_props_terminates (c : ComponentClass) (fuel : Nat)
    (h : ComponentClass.depth c ≤ fuel) :
    get_props_fuel fuel c = some (ComponentClass.get_props c) := by
  obtain ⟨d, bases⟩ := c
  revert h
  induction bases generalizing d fuel with
  | nil =>
    intro h
    cases fuel with
    | zero => exact absurd h (by simp [ComponentClass.depth])
    | succ f =>
      show get_props_fuel (f + 1) ⟨d, []⟩ = some (get_props_chain d [])
      simp only [get_props_fuel, get_props_chain]
      cases hx : ClassData._get_props d with
      | error e => rfl
      | ok props => rfl
  | cons x xs ih =>
    intro h
    cases fuel with
    | zero =>
      exact absurd h (by simp [ComponentClass.depth])
    | succ f =>
      have hf : ComponentClass.depth ⟨x, xs⟩ ≤ f := by
        simp [ComponentClass.depth, List.length_cons] at h ⊢
        omega
      have ihx : get_props_fuel f ⟨x, xs⟩ = some (get_props_chain x xs) := ih f x hf
      show get_props_fuel (f + 1) ⟨d, x :: xs⟩ = some (get_props_chain d (x :: xs))
      simp only [get_props_fuel, get_props_chain, ihx]
      cases hx : ClassData._get_props d with
      | error e => rfl
      | ok props =>
        cases hy : get_props_chain x xs with
        | error e => rfl
        | ok inh => rfl

/-- Witness for claim C8: the two-class chain `dA` over `dB` has depth 2,
and budget 2 reproduces `get_props`. -/
theorem c8_get_props_terminates_witness :
    get_props_fuel 2 ⟨dA, [dB]⟩ = some (ComponentClass.get_props ⟨dA, [dB]⟩) :=
  c8_get_props_terminates ⟨dA, [dB]⟩ 2 (by decide)

/-- Claim C9.  The pending comment buffer survives a skipped declaration:
comments `cs₁` accumulated above a line that is skipped (no `\w+:` match,
or a match that is not a declared prop) are included, before the skipped
line's own following comments `cs₂`, in the description of the next emitted
record. -/
theorem c9_stale_comment_buffer (d : ClassData) (i : Nat) (cs₁ : List String)
    (sk : String) (cs₂ : List String) (pl : String) (rest : List String)
    (p : String)
    (hcs₁ : ∀ c ∈ cs₁, hasDefSpace c = false ∧ isCommentLine c = true)
    (hcs₂ : ∀ c ∈ cs₂, hasDefSpace c = false ∧ isCommentLine c = true)
    (hcs₂ne : cs₂ ≠ [])
    (hsk1 : hasDefSpace sk = false) (hsk2 : isCommentLine sk = false)
    (hsk3 : propNameOf sk = none ∨
      ∃ q, propNameOf sk = some q ∧ d.props.contains q = false)
    (hdrop : d.code_lines.drop i = cs₁ ++ sk :: (cs₂ ++ pl :: rest))
    (h1 : hasDefSpace pl = false) (h2 : isCommentLine pl = false)
    (h3 : propNameOf pl = some p) (h4 : d.props.contains p = true) :
    getPropsAux d d.code_lines (cs₁ ++ sk :: (cs₂ ++ pl :: rest)) i [] =
      Except.map
        (fun out =>
          { name := p, type_ := fieldType d p,
            description := String.join ((cs₁ ++ cs₂).map (fun c =>
              pyStrip (fun ch => ch == '#') (pyStrip Char.isWhitespace c))) } :: out)
        (getPropsAux d d.code_lines rest (i + cs₁.length + 1 + cs₂.length + 1) []) := by
  rw [aux_skip_comments d d.code_lines cs₁ _ i [] hcs₁, List.nil_append,
    aux_step_skip d d.code_lines sk _ (i + cs₁.length) cs₁ hsk1 hsk2 hsk3,
    aux_skip_comments d d.code_lines cs₂ _ (i + cs₁.length + 1) cs₁ hcs₂]
  have hlt : 0 < cs₂.length := List.length_pos.mpr hcs₂ne
  have hprev : isCommentLine
      (prevLine d.code_lines (i + cs₁.length + 1 + cs₂.length)) = true := by
    have h0 : i + cs₁.length + 1 + cs₂.length =
        i + (cs₁.length + cs₂.length) + 1 := by omega
    rw [h0, prevLine_of_drop d.code_lines _ i (cs₁.length + cs₂.length) hdrop]
    have h0' : cs₁.length + cs₂.length = cs₁.length + (cs₂.length - 1 + 1) := by omega
    rw [h0', getD_append_add cs₁ _ (cs₂.length - 1 + 1), List.getD_cons_succ,
      getD_append_left cs₂ _ (cs₂.length - 1) (by omega)]
    exact (hcs₂ _ (getD_mem cs₂ (cs₂.length - 1) (by omega))).2
  rw [aux_step_emit d d.code_lines pl rest (i + cs₁.length + 1 + cs₂.length)
    (cs₁ ++ cs₂) p h1 h2 h3 h4 hprev]
  rfl

/-- Witness for claim C9: in `dC9` the comment `# lost` above the skipped
declaration `b: str` ends up, before `# own`, in the description of the `a`
record: `" lost own"`. -/
theorem c9_stale_comment_buffer_witness :
    getPropsAux dC9 dC9.code_lines ["# lost", "b: str", "# own", "a: int"] 0 [] =
      Except.ok [{ name := "a", type_ := PyType.plain (TypeName.named "int"),
                   description := " lost own" }] := by
  have h := c9_stale_comment_buffer dC9 0 ["# lost"] "b: str" ["# own"] "a: int" [] "a"
    (by decide) (by decide) (by decide) (by decide) (by decide)
    (Or.inr ⟨"b", by decide, by decide⟩) rfl (by decide) (by decide)
    (by decide) (by decide)
  exact h.trans rfl

/-- Claim C10.  The stored `code` is exactly the non-empty source lines in
order, and `self.code[i - 1]` at `i = 0` is the last stored line: when the
very first stored line matches a declared prop, the assertion inspects the
last stored line — emitting the record when that line strips to a comment,
aborting when it does not — instead of failing on a missing predecessor. -/
theorem c10_code_filter_and_wraparound (d : ClassData) (pl : String)
    (rest : List String) (p : String)
    (hcode : d.code_lines = pl :: rest)
    (h1 : hasDefSpace pl = false) (h2 : isCommentLine pl = false)
    (h3 : propNameOf pl = some p) (h4 : d.props.contains p = true) :
    d.code_lines = d.srcLines.filter (fun line => 0 < line.length) ∧
    prevLine d.code_lines 0 = d.code_lines.getLastD "" ∧
    (isCommentLine (d.code_lines.getLastD "") = true →
      ClassData._get_props d =
        Except.map (fun out =>
          { name := p, type_ := fieldType d p, description := "" } :: out)
          (getPropsAux d d.code_lines rest 1 [])) ∧
    (isCommentLine (d.code_lines.getLastD "") = false →
      ∃ e, ClassData._get_props d = Except.error e) := by
  have hwin : getPropsAux d d.code_lines d.code_lines 0 [] =
      getPropsAux d d.code_lines (pl :: rest) 0 [] := by rw [hcode]
  have hprev0 : prevLine d.code_lines 0 = d.code_lines.getLastD "" := by
    rw [prevLine, if_pos rfl]
  refine ⟨rfl, hprev0, ?_, ?_⟩
  · intro h
    show getPropsAux d d.code_lines d.code_lines 0 [] = _
    rw [hwin, aux_step_emit d d.code_lines pl rest 0 [] p h1 h2 h3 h4
      (by rw [hprev0]; exact h)]
    rfl
  · intro h
    have habort : getPropsAux d d.code_lines d.code_lines 0 [] =
        Except.error ("Expected comment, got " ++
          pyStrip Char.isWhitespace (prevLine d.code_lines 0)) := by
      rw [hwin, aux_step_abort d d.code_lines pl rest 0 [] p h1 h2 h3 h4
        (by rw [hprev0]; exact h)]
    exact ⟨_, habort⟩

/-- Witness for claim C10: in `dW10` the prop `a: int` is the first stored
line and the last stored line is the comment `# c`, so the assertion passes
by wrapping around to index `-1` and the record is emitted with an empty
description. -/
theorem c10_wraparound_witness :
    ClassData._get_props dW10 =
      Except.ok [{ name := "a", type_ := PyType.plain (TypeName.named "int"),
                   description := "" }] := by
  have h := (c10_code_filter_and_wraparound dW10 "a: int" ["x = 1", "# c"] "a"
    rfl (by decide) (by decide) (by decide) (by decide)).2.2.1 (by decide)
  exact h.trans rfl

end ReflexWeb
